import Mathlib

/-!
Shallow embedding of the mood-analysis pipeline of src/moodanalyser.py
(class MoodAnalyzer: _preprocess_data, _analyze_trends_and_baseline,
_detect_patterns_and_anomalies, _synthesize_insights, run_analysis).

Modelling choices, each noted at its definition:
 - numeric scores and statistics are rationals (exact real arithmetic in
   place of Python floats);
 - the sample standard deviation std = sqrt(variance) is kept as the
   variance in the state; every comparison of the source of the form
   x < m - c*std is embedded as the algebraically equivalent rational
   predicate 0 < m - x and c^2*var < (m - x)^2, and theorems bridge it
   back to the Real.sqrt formulation;
 - pandas to_datetime is modelled for ISO-8601 date strings (the format
   the program's own collector produces);
 - the vaderSentiment capability is an injected function String -> Q,
   as the analysis only pipes its output through;
 - insight records {type, text} are embedded as an inductive type whose
   constructors carry the data interpolated into the text.
-/

namespace MoodTracker

/-- A calendar date as parsed from an ISO-8601 date string. -/
structure Date where
  year : ℕ
  month : ℕ
  day : ℕ
deriving DecidableEq

/-- Chronological comparison key for dates (year, then month, then day;
injective for parsed dates because month <= 12 and day <= 31). -/
def dateKey (d : Date) : ℕ :=
  d.year * 10000 + d.month * 100 + d.day

/-- Full English month name, as produced by strftime with percent-B. -/
def monthName : ℕ → String
  | 1 => "January"
  | 2 => "February"
  | 3 => "March"
  | 4 => "April"
  | 5 => "May"
  | 6 => "June"
  | 7 => "July"
  | 8 => "August"
  | 9 => "September"
  | 10 => "October"
  | 11 => "November"
  | 12 => "December"
  | _ => ""

/-- Zero-padded two-digit day, as produced by strftime with percent-d. -/
def pad2 (n : ℕ) : String :=
  if n < 10 then "0" ++ toString n else toString n

/-- The date text of line 68: conflicting_entry.index[0].strftime of
percent-B space percent-d. -/
def formatMonthDay (d : Date) : String :=
  monthName d.month ++ " " ++ pad2 d.day

/-- One raw input entry as handed to MoodAnalyzer(user_data): a date
string, a mood score, and optional tags / journal (none models a
missing or non-list value, normalized by lines 28-31). -/
structure RawRecord where
  date : String
  mood_score : ℚ
  tags : Option (List String)
  journal : Option String
deriving DecidableEq

/-- One row of the preprocessed dataframe (date parsed, tags and
journal normalized). -/
structure Record where
  date : Date
  mood_score : ℚ
  tags : List String
  journal : String
deriving DecidableEq

/-- Numeric value of a digit string. -/
def digitsVal (cs : List Char) : ℕ :=
  cs.foldl (fun n c => 10 * n + (c.toNat - 48)) 0

/-- Split a character list at dashes. -/
def splitDashAux : List Char → List Char → List (List Char)
  | [], acc => [acc.reverse]
  | c :: rest, acc =>
    if c = '-' then acc.reverse :: splitDashAux rest []
    else splitDashAux rest (c :: acc)

/-- One numeric date component: nonempty and all digits. -/
def parseComp (cs : List Char) : Option ℕ :=
  if cs ≠ [] ∧ cs.all Char.isDigit then some (digitsVal cs) else none

/-- Model of pd.to_datetime at line 25, restricted to ISO-8601 date
strings (the format collect_user_entries produces); none models the
parse error pandas raises. -/
def parseDate (s : String) : Option Date :=
  match splitDashAux s.data [] with
  | [ys, ms, ds] =>
    match parseComp ys, parseComp ms, parseComp ds with
    | some y, some m, some d =>
      if 1 ≤ m ∧ m ≤ 12 ∧ 1 ≤ d ∧ d ≤ 31 then some ⟨y, m, d⟩ else none
    | _, _, _ => none
  | _ => none

/-- The empty string (journal default of line 29/31). -/
def emptyS : String := ""

/-- Normalization of one raw entry, lines 28-31: missing or non-list
tags become the empty list, missing journal becomes the empty string. -/
def mkRecord (r : RawRecord) (d : Date) : Record :=
  { date := d
    mood_score := r.mood_score
    tags := match r.tags with
      | some l => l
      | none => []
    journal := match r.journal with
      | some j => j
      | none => emptyS }

/-- Stable insertion by date key (sort_index of line 27). -/
def insertRec (r : Record) : List Record → List Record
  | [] => [r]
  | x :: xs =>
    if dateKey r.date ≤ dateKey x.date then r :: x :: xs
    else x :: insertRec r xs

/-- Stable sort of the rows by ascending date, line 27. -/
def sortRecs (l : List Record) : List Record :=
  l.foldr insertRec []

/-- Parse every raw entry's date; none if any date is unparseable
(pandas raises on the whole to_datetime call, line 25). -/
def parseAll : List RawRecord → Option (List Record)
  | [] => some []
  | r :: rest =>
    match parseDate r.date, parseAll rest with
    | some d, some rs => some (mkRecord r d :: rs)
    | _, _ => none

/-- Error text for an input list with no rows (pd.DataFrame([]) has no
date column, so line 25 raises a KeyError). -/
def emptyInputMsg : String := "no data"

/-- Error text for an unparseable date (pandas parse error, line 25). -/
def badDateMsg : String := "unparseable date"

/-- _preprocess_data, lines 23-32: build the frame, parse dates, sort
by date, normalize tags and journal. An Except.error value models the
exception propagating to the caller of the constructor. Note the
source validates nothing else: mood_score in particular is not
range-checked anywhere in the class. -/
def preprocess (raw : List RawRecord) : Except String (List Record) :=
  if raw = [] then Except.error emptyInputMsg
  else
    match parseAll raw with
    | none => Except.error badDateMsg
    | some rs => Except.ok (sortRecs rs)

/-- Arithmetic mean, as pandas Series.mean. -/
def qmean (xs : List ℚ) : ℚ :=
  xs.sum / (xs.length : ℚ)

/-- Sample variance with n-1 denominator: the square of pandas
Series.std() (default ddof = 1), line 36. -/
def sampleVar (xs : List ℚ) : ℚ :=
  ((xs.map (fun x => (x - qmean xs) ^ 2)).sum) / ((xs.length : ℚ) - 1)

/-- rolling(window=7).mean() of line 37: entry i is the mean of the 7
trailing values ending at i, undefined (none, pandas NaN) for i < 6. -/
def rolling7 (xs : List ℚ) : List (Option ℚ) :=
  (List.range xs.length).map
    (fun i => if 6 ≤ i then some (qmean ((xs.take (i + 1)).drop (i - 6))) else none)

/-- The comparison x < mu - c * sqrt v of lines 40-41 and 64, embedded
in ℚ through the equivalent squared form (valid for 0 ≤ c, 0 ≤ v);
theorem belowBySigma_iff_real recovers the Real.sqrt reading. -/
def belowBySigma (mu v c x : ℚ) : Bool :=
  if 0 < mu - x ∧ c ^ 2 * v < (mu - x) ^ 2 then true else false

/-- Last n elements of a list (Series.tail(n), line 62). -/
def lastN (n : ℕ) (l : List α) : List α :=
  l.drop (l.length - n)

/-- Number of true flags (sum over a boolean column, line 62). -/
def countTrue : List Bool → ℕ
  | [] => 0
  | b :: l => (if b then 1 else 0) + countTrue l

/-- df.explode('tags').dropna(subset=['tags']) of line 43: one
(tag, score) row per tag occurrence, in row order; rows with an empty
tag list (exploded to NaN) disappear. -/
def explodeTags : List Record → List (String × ℚ)
  | [] => []
  | r :: rest => r.tags.map (fun t => (t, r.mood_score)) ++ explodeTags rest

/-- Scores of the exploded rows carrying a given tag (one group of the
groupby of line 44). -/
def tagScores (t : String) : List (String × ℚ) → List ℚ
  | [] => []
  | p :: rest =>
    if p.1 = t then p.2 :: tagScores t rest else tagScores t rest

/-- group['mood_score'].mean() for the group of tag t, line 45. -/
def tagMean (rs : List Record) (t : String) : ℚ :=
  qmean (tagScores t (explodeTags rs))

/-- Distinct elements keeping first occurrences, in encounter order. -/
def dedupFirstAux (seen : List String) : List String → List String
  | [] => []
  | t :: rest =>
    if t ∈ seen then dedupFirstAux seen rest
    else t :: dedupFirstAux (t :: seen) rest

/-- Distinct tags in the order first encountered in the exploded rows. -/
def dedupFirst (l : List String) : List String :=
  dedupFirstAux [] l

/-- Lexicographic comparison of code-point lists (Python string
ordering, used by groupby's sort of the group keys). -/
def lexLe : List ℕ → List ℕ → Bool
  | [], _ => true
  | _ :: _, [] => false
  | a :: as, b :: bs =>
    if a < b then true else if b < a then false else lexLe as bs

/-- Lexicographic string comparison on code points. -/
def strLe (s t : String) : Bool :=
  lexLe (s.data.map Char.toNat) (t.data.map Char.toNat)

/-- Insert into a lexicographically sorted tag list. -/
def insertTag (t : String) : List String → List String
  | [] => [t]
  | x :: xs => if strLe t x then t :: x :: xs else x :: insertTag t xs

/-- Sort tags lexicographically: pandas groupby (line 44) enumerates
its groups with sorted keys (sort=True is the default). -/
def sortTags (l : List String) : List String :=
  l.foldr insertTag []

/-- Distinct tags in first-encounter order (before groupby sorts). -/
def tagsOf (rs : List Record) : List String :=
  dedupFirst ((explodeTags rs).map Prod.fst)

/-- The group keys in the order groupby enumerates them: sorted. -/
def sortedTagsOf (rs : List Record) : List String :=
  sortTags (tagsOf rs)

/-- analytics['tag_correlations'] after lines 42-46: each group key,
in groupby (sorted) enumeration order, with its group's mean score;
this is also the iteration order of the tag_moods dict of line 57,
since dict iteration follows insertion order. -/
def tagCorr (rs : List Record) : List (String × ℚ) :=
  (sortedTagsOf rs).map (fun t => (t, tagMean rs t))

/-- The journal_sentiment entry of lines 48-49: polarity_scores on a
nonempty journal text, 0 on the empty one (Python: `if text`). -/
def sentOf (senti : String → ℚ) (r : Record) : ℚ :=
  if r.journal = emptyS then 0 else senti r.journal

/-- The six insight types of the synthesizer. -/
inductive InsightKind
  | info
  | positive_pattern
  | negative_pattern
  | concerning_trend
  | care_recommendation
  | nlp_insight
deriving DecidableEq

/-- One insight record: the constructor carries the data interpolated
into its text by _synthesize_insights. -/
inductive Insight
  | infoSummary (days : ℕ) (baseline : ℚ)
  | infoMoreData
  | positivePattern (tag : String) (mean : ℚ)
  | negativePattern (tag : String) (mean : ℚ)
  | concerningTrend
  | careRecommendation
  | nlpInsight (dateText : String)
deriving DecidableEq

/-- The "type" field of an insight dict. -/
def Insight.kind : Insight → InsightKind
  | .infoSummary _ _ => .info
  | .infoMoreData => .info
  | .positivePattern _ _ => .positive_pattern
  | .negativePattern _ _ => .negative_pattern
  | .concerningTrend => .concerning_trend
  | .careRecommendation => .care_recommendation
  | .nlpInsight _ => .nlp_insight

/-- Tags of the pattern insights of a list, in emission order. -/
def patternTags : List Insight → List String
  | [] => []
  | Insight.positivePattern t _ :: rest => t :: patternTags rest
  | Insight.negativePattern t _ :: rest => t :: patternTags rest
  | _ :: rest => patternTags rest

/-- Number of nlp_insight entries of a list. -/
def countNlp : List Insight → ℕ
  | [] => 0
  | Insight.nlpInsight _ :: rest => 1 + countNlp rest
  | _ :: rest => countNlp rest

/-- The tag-pattern loop of lines 57-61: one pass over
tag_correlations, a positive pattern when the tag mean is strictly
above baseline + 1.0, else a negative pattern when strictly below
baseline - 1.0. -/
def tagInsights (base : ℚ) : List (String × ℚ) → List Insight
  | [] => []
  | p :: rest =>
    if base + 1 < p.2 then Insight.positivePattern p.1 p.2 :: tagInsights base rest
    else if p.2 < base - 1 then Insight.negativePattern p.1 p.2 :: tagInsights base rest
    else tagInsights base rest

/-- Lines 62-63: concerning trend when at least 3 of the last 14
anomaly flags are set. -/
def trendInsight (flags : List Bool) : List Insight :=
  if 3 ≤ countTrue (lastN 14 flags) then [Insight.concerningTrend] else []

/-- Lines 64-65: care recommendation when the record count exceeds 14
and the latest 7-day rolling average is strictly below
baseline - std (std = sqrt of the sample variance v). -/
def careInsight (n : ℕ) (base v : ℚ) (col : List (Option ℚ)) : List Insight :=
  if 14 < n then
    match col.getLast? with
    | some (some av) =>
      if belowBySigma base v 1 av then [Insight.careRecommendation] else []
    | _ => []
  else []

/-- The row filter of line 66 followed by index[0]: the first row (in
frame order) with mood_score > 7 and journal_sentiment < -0.5. -/
def findConflict : List (Record × ℚ) → Option (Record × ℚ)
  | [] => none
  | p :: rest =>
    if 7 < p.1.mood_score ∧ p.2 < -(1 / 2) then some p else findConflict rest

/-- Lines 66-69: one nlp insight naming the first conflicting row's
date, none when no row conflicts. -/
def mismatchInsight (rs : List Record) (sents : List ℚ) : List Insight :=
  match findConflict (rs.zip sents) with
  | some p => [Insight.nlpInsight (formatMonthDay p.1.date)]
  | none => []

/-- The state of a MoodAnalyzer object: the dataframe rows, the
derived columns (none before they are written), the analytics dict
entries (none models a missing key; mood_var holds the square of
analytics['mood_std_dev']), and the insights list. -/
structure MoodAnalyzer where
  df : List Record
  insights : List Insight
  baseline_mood : Option ℚ
  mood_var : Option ℚ
  mood_7_day_avg : Option (List (Option ℚ))
  is_anomaly : Option (List Bool)
  tag_correlations : Option (List (String × ℚ))
  journal_sentiment : Option (List ℚ)
deriving DecidableEq

/-- The state right after __init__ (lines 19-22) on an already
preprocessed frame: empty insights, empty analytics, no derived
columns. -/
def MoodAnalyzer.init (rs : List Record) : MoodAnalyzer :=
  { df := rs
    insights := []
    baseline_mood := none
    mood_var := none
    mood_7_day_avg := none
    is_anomaly := none
    tag_correlations := none
    journal_sentiment := none }

/-- The mood_score column. -/
def scoresOf (rs : List Record) : List ℚ :=
  rs.map Record.mood_score

/-- analytics['baseline_mood'], line 35. -/
def baselineOf (rs : List Record) : ℚ :=
  qmean (scoresOf rs)

/-- The square of analytics['mood_std_dev'], line 36. -/
def varOf (rs : List Record) : ℚ :=
  sampleVar (scoresOf rs)

/-- The is_anomaly column of line 41, threshold c = 7/4 = 1.75. -/
def flagsOf (rs : List Record) : List Bool :=
  rs.map (fun r => belowBySigma (baselineOf rs) (varOf rs) (7 / 4) r.mood_score)

/-- The latest mood_7_day_avg value: mean of the last 7 scores. -/
def last7avgOf (rs : List Record) : ℚ :=
  qmean ((scoresOf rs).drop (rs.length - 7))

/-- _analyze_trends_and_baseline, lines 33-37: below 7 records nothing
is written; otherwise baseline, std (kept as variance) and the rolling
column. -/
def analyzeTrends (a : MoodAnalyzer) : MoodAnalyzer :=
  if a.df.length < 7 then a
  else
    { a with
      baseline_mood := some (baselineOf a.df)
      mood_var := some (varOf a.df)
      mood_7_day_avg := some (rolling7 (scoresOf a.df)) }

/-- _detect_patterns_and_anomalies, lines 38-49: an early return when
baseline_mood is not in analytics; otherwise the anomaly column, the
tag correlations and the journal_sentiment column. -/
def detectPatterns (senti : String → ℚ) (a : MoodAnalyzer) : MoodAnalyzer :=
  match a.baseline_mood, a.mood_var with
  | some base, some v =>
    { a with
      is_anomaly := some (a.df.map (fun r => belowBySigma base v (7 / 4) r.mood_score))
      tag_correlations := some (tagCorr a.df)
      journal_sentiment := some (a.df.map (sentOf senti)) }
  | _, _ => a

/-- _synthesize_insights, lines 50-69: without baseline statistics a
single info prompt and an immediate return; otherwise the baseline
summary, the tag patterns, the concerning trend, the care
recommendation and the sentiment mismatch, appended in that order. -/
def synthesize (a : MoodAnalyzer) : MoodAnalyzer :=
  match a.baseline_mood, a.mood_var with
  | some base, some v =>
    { a with
      insights := a.insights ++
        (Insight.infoSummary a.df.length base ::
          (tagInsights base (a.tag_correlations.getD []) ++
            trendInsight (a.is_anomaly.getD []) ++
            careInsight a.df.length base v (a.mood_7_day_avg.getD []) ++
            mismatchInsight a.df (a.journal_sentiment.getD []))) }
  | _, _ => { a with insights := a.insights ++ [Insight.infoMoreData] }

/-- run_analysis, lines 70-74: the three passes in order. -/
def run_analysis (senti : String → ℚ) (a : MoodAnalyzer) : MoodAnalyzer :=
  synthesize (detectPatterns senti (analyzeTrends a))

/-- Constructing a MoodAnalyzer on raw entries and running
run_analysis: the returned insights, or the preprocessing error. -/
def analyze (senti : String → ℚ) (raw : List RawRecord) : Except String (List Insight) :=
  match preprocess raw with
  | Except.error e => Except.error e
  | Except.ok rs => Except.ok (run_analysis senti (MoodAnalyzer.init rs)).insights

/-- Records bearing a tag, each kept once. Following the spec's words
for the tag correlator ("a record contributing once per distinct tag
it carries"), for comparison with the source's explode-based grouping. -/
def recordsWithTag (t : String) : List Record → List Record
  | [] => []
  | r :: rest =>
    if t ∈ r.tags then r :: recordsWithTag t rest else recordsWithTag t rest

/-- Mean mood score over the records bearing a tag, each counted once:
the tag mean the spec's distinct-tag wording prescribes. -/
def specTagMeanDistinct (rs : List Record) (t : String) : ℚ :=
  qmean (scoresOf (recordsWithTag t rs))

/-- One score per occurrence of the tag in one record's tag list. -/
def occList (t : String) (score : ℚ) : List String → List ℚ
  | [] => []
  | s :: rest =>
    if s = t then score :: occList t score rest else occList t score rest

/-- One score per (record, tag-occurrence) pair over the whole series:
what the explode-based grouping actually averages. -/
def occScores (t : String) : List Record → List ℚ
  | [] => []
  | r :: rest => occList t r.mood_score r.tags ++ occScores t rest

/-- A sentiment stub returning 0 on every text. -/
def sZero : String → ℚ := fun _ => 0

/-- A sentiment stub returning 1 on every text. -/
def sPlus : String → ℚ := fun _ => 1

/-- A sentiment stub: strongly negative on every nonempty text. -/
def sNeg : String → ℚ := fun s => if s = emptyS then 0 else -1

/-- Sample tag names and journal texts. -/
def tagA : String := "a"

def tagB : String := "b"

def jText : String := "bad day"

def jNeg : String := "awful"

/-- Sample date strings. -/
def dStr1 : String := "2024-01-05"

def badDateS : String := "nodate"

def ds1 : String := "2024-03-01"

def ds2 : String := "2024-03-02"

def ds3 : String := "2024-03-03"

def ds4 : String := "2024-03-04"

def ds5 : String := "2024-03-05"

def ds6 : String := "2024-03-06"

def ds7 : String := "2024-03-07"

/-- Three preprocessed records with arbitrary content (C1 witness). -/
def rs1c : List Record :=
  [⟨⟨2024, 1, 1⟩, 10, [tagA], jText⟩,
   ⟨⟨2024, 1, 2⟩, 1, [], emptyS⟩,
   ⟨⟨2024, 1, 3⟩, 999, [tagB], jText⟩]

/-- One raw entry whose mood score 999 lies far outside [1, 10]. -/
def rawBad : List RawRecord :=
  [⟨dStr1, 999, some [], none⟩]

/-- One raw entry whose date string cannot be parsed. -/
def rawErr : List RawRecord :=
  [⟨badDateS, 5, none, none⟩]

/-- One well-formed raw entry. -/
def rawD : List RawRecord :=
  [⟨dStr1, 5, none, none⟩]

/-- Seven records, two of them tagged (C3 witness). -/
def rs3c : List Record :=
  [⟨⟨2024, 2, 1⟩, 9, [], emptyS⟩,
   ⟨⟨2024, 2, 2⟩, 9, [], emptyS⟩,
   ⟨⟨2024, 2, 3⟩, 5, [], emptyS⟩,
   ⟨⟨2024, 2, 4⟩, 5, [], emptyS⟩,
   ⟨⟨2024, 2, 5⟩, 5, [], emptyS⟩,
   ⟨⟨2024, 2, 6⟩, 5, [], emptyS⟩,
   ⟨⟨2024, 2, 7⟩, 4, [], emptyS⟩]

/-- Seven records where one record carries the same tag twice: the
exploded grouping counts its score twice for that tag. -/
def rs4 : List Record :=
  [⟨⟨2024, 4, 1⟩, 10, [tagA, tagA], emptyS⟩,
   ⟨⟨2024, 4, 2⟩, 4, [tagA], emptyS⟩,
   ⟨⟨2024, 4, 3⟩, 5, [], emptyS⟩,
   ⟨⟨2024, 4, 4⟩, 5, [], emptyS⟩,
   ⟨⟨2024, 4, 5⟩, 5, [], emptyS⟩,
   ⟨⟨2024, 4, 6⟩, 5, [], emptyS⟩,
   ⟨⟨2024, 4, 7⟩, 5, [], emptyS⟩]

/-- Seven records where tag b is encountered before tag a and both
tags sit well above baseline + 1. -/
def rs5 : List Record :=
  [⟨⟨2024, 5, 1⟩, 9, [tagB], emptyS⟩,
   ⟨⟨2024, 5, 2⟩, 9, [tagA], emptyS⟩,
   ⟨⟨2024, 5, 3⟩, 5, [], emptyS⟩,
   ⟨⟨2024, 5, 4⟩, 5, [], emptyS⟩,
   ⟨⟨2024, 5, 5⟩, 5, [], emptyS⟩,
   ⟨⟨2024, 5, 6⟩, 5, [], emptyS⟩,
   ⟨⟨2024, 5, 7⟩, 4, [], emptyS⟩]

/-- Seven raw entries, one with a high mood and a negative journal
(C6 witness input). -/
def raw6 : List RawRecord :=
  [⟨ds1, 5, none, none⟩,
   ⟨ds2, 5, none, none⟩,
   ⟨ds3, 9, none, some jNeg⟩,
   ⟨ds4, 5, none, none⟩,
   ⟨ds5, 5, none, none⟩,
   ⟨ds6, 5, none, none⟩,
   ⟨ds7, 5, none, none⟩]

/-- The preprocessed form of raw6. -/
def rs6c : List Record :=
  [⟨⟨2024, 3, 1⟩, 5, [], emptyS⟩,
   ⟨⟨2024, 3, 2⟩, 5, [], emptyS⟩,
   ⟨⟨2024, 3, 3⟩, 9, [], jNeg⟩,
   ⟨⟨2024, 3, 4⟩, 5, [], emptyS⟩,
   ⟨⟨2024, 3, 5⟩, 5, [], emptyS⟩,
   ⟨⟨2024, 3, 6⟩, 5, [], emptyS⟩,
   ⟨⟨2024, 3, 7⟩, 5, [], emptyS⟩]

/-- Three records, all with a nonempty journal (C8 counterexample). -/
def rs8 : List Record :=
  [⟨⟨2024, 6, 1⟩, 5, [], jText⟩,
   ⟨⟨2024, 6, 2⟩, 6, [], jText⟩,
   ⟨⟨2024, 6, 3⟩, 7, [], jText⟩]

/-- Seven records with mixed empty and nonempty journals. -/
def rs8a : List Record :=
  [⟨⟨2024, 7, 1⟩, 5, [], jText⟩,
   ⟨⟨2024, 7, 2⟩, 6, [], emptyS⟩,
   ⟨⟨2024, 7, 3⟩, 7, [], jText⟩,
   ⟨⟨2024, 7, 4⟩, 5, [], emptyS⟩,
   ⟨⟨2024, 7, 5⟩, 5, [], emptyS⟩,
   ⟨⟨2024, 7, 6⟩, 5, [], emptyS⟩,
   ⟨⟨2024, 7, 7⟩, 5, [], emptyS⟩]

lemma belowBySigma_eq_true_iff (mu v c x : ℚ) :
    belowBySigma mu v c x = true ↔ (0 < mu - x ∧ c ^ 2 * v < (mu - x) ^ 2) := by
  unfold belowBySigma
  split
  · simp_all
  · simp_all

/-- The squared-form flag holds exactly when the value lies strictly
below mu - c * sqrt v, for a nonnegative variance v and factor c. -/
lemma belowBySigma_iff_real (mu v c x : ℚ) (hv : 0 ≤ v) (hc : 0 ≤ c) :
    belowBySigma mu v c x = true ↔
      (x : ℝ) < (mu : ℝ) - (c : ℝ) * Real.sqrt (v : ℝ) := by
  rw [belowBySigma_eq_true_iff]
  have hc' : (0 : ℝ) ≤ (c : ℝ) := by exact_mod_cast hc
  have hv' : (0 : ℝ) ≤ (v : ℝ) := by exact_mod_cast hv
  constructor
  · rintro ⟨h1, h2⟩
    have h1' : (0 : ℝ) < (mu : ℝ) - (x : ℝ) := by exact_mod_cast h1
    have h2' : ((c : ℝ)) ^ 2 * (v : ℝ) < ((mu : ℝ) - (x : ℝ)) ^ 2 := by
      exact_mod_cast h2
    have hs : Real.sqrt (((c : ℝ)) ^ 2 * (v : ℝ)) < (mu : ℝ) - (x : ℝ) :=
      (Real.sqrt_lt' h1').mpr h2'
    rw [Real.sqrt_mul (sq_nonneg _) _, Real.sqrt_sq hc'] at hs
    linarith
  · intro h
    have hnn : 0 ≤ (c : ℝ) * Real.sqrt (v : ℝ) :=
      mul_nonneg hc' (Real.sqrt_nonneg _)
    have h1' : (0 : ℝ) < (mu : ℝ) - (x : ℝ) := by linarith
    have hs : Real.sqrt (((c : ℝ)) ^ 2 * (v : ℝ)) < (mu : ℝ) - (x : ℝ) := by
      rw [Real.sqrt_mul (sq_nonneg _) _, Real.sqrt_sq hc']
      linarith
    have h2' := (Real.sqrt_lt' h1').mp hs
    constructor
    · exact_mod_cast h1'
    · exact_mod_cast h2'

lemma sampleVar_nonneg (xs : List ℚ) (h : 2 ≤ xs.length) : 0 ≤ sampleVar xs := by
  unfold sampleVar
  apply div_nonneg
  · apply List.sum_nonneg
    intro y hy
    rcases List.mem_map.mp hy with ⟨x, _, rfl⟩
    exact sq_nonneg _
  · have : (2 : ℚ) ≤ (xs.length : ℚ) := by exact_mod_cast h
    linarith

lemma length_scoresOf (rs : List Record) : (scoresOf rs).length = rs.length := by
  simp [scoresOf]

/-- run_analysis on fewer than 7 records: every pass short-circuits
and only the info prompt is appended. -/
lemma run_lt (rs : List Record) (senti : String → ℚ) (h : rs.length < 7) :
    run_analysis senti (MoodAnalyzer.init rs) =
      { MoodAnalyzer.init rs with insights := [Insight.infoMoreData] } := by
  simp [run_analysis, analyzeTrends, detectPatterns, synthesize, MoodAnalyzer.init, h]

/-- run_analysis on at least 7 records: the full pipeline state. -/
lemma run_ge (rs : List Record) (senti : String → ℚ) (h : 7 ≤ rs.length) :
    run_analysis senti (MoodAnalyzer.init rs) =
      { df := rs
        insights := Insight.infoSummary rs.length (baselineOf rs) ::
          (tagInsights (baselineOf rs) (tagCorr rs) ++
            trendInsight (flagsOf rs) ++
            careInsight rs.length (baselineOf rs) (varOf rs) (rolling7 (scoresOf rs)) ++
            mismatchInsight rs (rs.map (sentOf senti)))
        baseline_mood := some (baselineOf rs)
        mood_var := some (varOf rs)
        mood_7_day_avg := some (rolling7 (scoresOf rs))
        is_anomaly := some (flagsOf rs)
        tag_correlations := some (tagCorr rs)
        journal_sentiment := some (rs.map (sentOf senti)) } := by
  have h' : ¬ rs.length < 7 := Nat.not_lt.mpr h
  simp [run_analysis, analyzeTrends, detectPatterns, synthesize, MoodAnalyzer.init,
    h', flagsOf]

/-- C1. For every input list with record count < 7, the analysis
output is exactly one insight, of kind info, prompting for more data,
regardless of the scores, tags, or journals in the records; no other
rule is evaluated. -/
theorem insufficient_data_single_info (rs : List Record) (senti : String → ℚ)
    (h : rs.length < 7) :
    (run_analysis senti (MoodAnalyzer.init rs)).insights = [Insight.infoMoreData] ∧
    Insight.kind Insight.infoMoreData = InsightKind.info := by
  rw [run_lt rs senti h]
  exact ⟨rfl, rfl⟩

theorem insufficient_data_single_info_witness :
    rs1c.length < 7 ∧
    ((run_analysis sNeg (MoodAnalyzer.init rs1c)).insights = [Insight.infoMoreData] ∧
      Insight.kind Insight.infoMoreData = InsightKind.info) :=
  ⟨by decide, insufficient_data_single_info rs1c sNeg (by decide)⟩

/-- C2 counterexample: a record whose mood score 999 lies outside
[1, 10] is accepted without any error; construction succeeds and the
analysis runs to completion. -/
theorem invalid_score_accepted_cex :
    (999 : ℚ) ∉ Set.Icc (1 : ℚ) 10 ∧
    analyze sZero rawBad = Except.ok [Insight.infoMoreData] := by
  constructor
  · simp [Set.mem_Icc]
    norm_num
  · rfl

lemma parseAll_eq_none (raw : List RawRecord) :
    parseAll raw = none ↔ ∃ r ∈ raw, parseDate r.date = none := by
  induction raw with
  | nil => simp [parseAll]
  | cons r rest ih =>
    cases hd : parseDate r.date with
    | none =>
      simp only [parseAll, hd]
      constructor
      · intro _
        exact ⟨r, by simp, hd⟩
      · intro _
        trivial
    | some d =>
      cases hp : parseAll rest with
      | none =>
        simp only [parseAll, hd, hp]
        constructor
        · intro _
          rcases ih.mp hp with ⟨r', hr', hr'd⟩
          exact ⟨r', by simp [hr'], hr'd⟩
        · intro _
          trivial
      | some rs =>
        simp only [parseAll, hd, hp]
        constructor
        · intro hcontra
          exact absurd hcontra (by simp)
        · rintro ⟨r', hr', hr'd⟩
          rcases List.mem_cons.mp hr' with rfl | hmem
          · rw [hd] at hr'd
            exact absurd hr'd (by simp)
          · have := ih.mpr ⟨r', hmem, hr'd⟩
            rw [hp] at this
            exact absurd this (by simp)

/-- C2 corrected. For a nonempty input, construction raises exactly
when some record's date cannot be parsed, and the error is surfaced to
the caller with no analysis result; a mood score outside [1, 10] is
not rejected (see the counterexample). -/
theorem error_iff_unparseable_date (raw : List RawRecord) (senti : String → ℚ)
    (hne : raw ≠ []) :
    (∃ e, analyze senti raw = Except.error e) ↔
      ∃ r ∈ raw, parseDate r.date = none := by
  unfold analyze preprocess
  rw [if_neg hne]
  cases hp : parseAll raw with
  | none =>
    simp only []
    constructor
    · intro _
      exact (parseAll_eq_none raw).mp hp
    · intro _
      exact ⟨badDateMsg, rfl⟩
  | some rs =>
    simp only []
    constructor
    · rintro ⟨e, he⟩
      exact absurd he (by simp)
    · intro hex
      have := (parseAll_eq_none raw).mpr hex
      rw [hp] at this
      exact absurd this (by simp)

theorem error_iff_unparseable_date_witness :
    rawErr ≠ [] ∧ (∃ e, analyze sZero rawErr = Except.error e) :=
  ⟨by decide,
    (error_iff_unparseable_date rawErr sZero (by decide)).mpr
      ⟨⟨badDateS, 5, none, none⟩, by decide, by decide⟩⟩

lemma mem_tagInsights (base : ℚ) (tc : List (String × ℚ)) (i : Insight) :
    i ∈ tagInsights base tc ↔
      ∃ p ∈ tc, (i = Insight.positivePattern p.1 p.2 ∧ base + 1 < p.2) ∨
        (i = Insight.negativePattern p.1 p.2 ∧ p.2 < base - 1) := by
  induction tc with
  | nil => simp [tagInsights]
  | cons p rest ih =>
    unfold tagInsights
    by_cases h1 : base + 1 < p.2
    · rw [if_pos h1]
      simp only [List.mem_cons, ih]
      constructor
      · rintro (rfl | ⟨q, hq, hcase⟩)
        · exact ⟨p, by simp, Or.inl ⟨rfl, h1⟩⟩
        · exact ⟨q, by simp [hq], hcase⟩
      · rintro ⟨q, hq, hcase⟩
        have hq2 : q = p ∨ q ∈ rest := by simpa using hq
        rcases hq2 with rfl | hq'
        · rcases hcase with ⟨rfl, _⟩ | ⟨rfl, h2⟩
          · left
            rfl
          · exfalso
            linarith
        · exact Or.inr ⟨q, hq', hcase⟩
    · rw [if_neg h1]
      by_cases h2 : p.2 < base - 1
      · rw [if_pos h2]
        simp only [List.mem_cons, ih]
        constructor
        · rintro (rfl | ⟨q, hq, hcase⟩)
          · exact ⟨p, by simp, Or.inr ⟨rfl, h2⟩⟩
          · exact ⟨q, by simp [hq], hcase⟩
        · rintro ⟨q, hq, hcase⟩
          have hq2 : q = p ∨ q ∈ rest := by simpa using hq
          rcases hq2 with rfl | hq'
          · rcases hcase with ⟨rfl, hgt⟩ | ⟨rfl, _⟩
            · exact absurd hgt h1
            · left
              rfl
          · exact Or.inr ⟨q, hq', hcase⟩
      · rw [if_neg h2, ih]
        constructor
        · rintro ⟨q, hq, hcase⟩
          exact ⟨q, by simp [hq], hcase⟩
        · rintro ⟨q, hq, hcase⟩
          have hq2 : q = p ∨ q ∈ rest := by simpa using hq
          rcases hq2 with rfl | hq'
          · rcases hcase with ⟨_, hgt⟩ | ⟨_, hlt⟩
            · exact absurd hgt h1
            · exact absurd hlt h2
          · exact ⟨q, hq', hcase⟩

lemma pos_mem_tagInsights (base : ℚ) (tc : List (String × ℚ)) (t : String) (m : ℚ) :
    Insight.positivePattern t m ∈ tagInsights base tc ↔ (t, m) ∈ tc ∧ base + 1 < m := by
  rw [mem_tagInsights]
  constructor
  · rintro ⟨p, hp, ⟨heq, hgt⟩ | ⟨heq, _⟩⟩
    · obtain ⟨h1, h2⟩ := Insight.positivePattern.inj heq
      subst h1
      subst h2
      exact ⟨hp, hgt⟩
    · exact absurd heq (by simp)
  · rintro ⟨hmem, hgt⟩
    exact ⟨(t, m), hmem, Or.inl ⟨rfl, hgt⟩⟩

lemma neg_mem_tagInsights (base : ℚ) (tc : List (String × ℚ)) (t : String) (m : ℚ) :
    Insight.negativePattern t m ∈ tagInsights base tc ↔ (t, m) ∈ tc ∧ m < base - 1 := by
  rw [mem_tagInsights]
  constructor
  · rintro ⟨p, hp, ⟨heq, _⟩ | ⟨heq, hlt⟩⟩
    · exact absurd heq (by simp)
    · obtain ⟨h1, h2⟩ := Insight.negativePattern.inj heq
      subst h1
      subst h2
      exact ⟨hp, hlt⟩
  · rintro ⟨hmem, hlt⟩
    exact ⟨(t, m), hmem, Or.inr ⟨rfl, hlt⟩⟩

lemma care_not_mem_tagInsights (base : ℚ) (tc : List (String × ℚ)) :
    Insight.careRecommendation ∉ tagInsights base tc := by
  rw [mem_tagInsights]
  rintro ⟨p, _, ⟨h, _⟩ | ⟨h, _⟩⟩ <;> simp at h

lemma nlp_not_mem_tagInsights (base : ℚ) (tc : List (String × ℚ)) (s : String) :
    Insight.nlpInsight s ∉ tagInsights base tc := by
  rw [mem_tagInsights]
  rintro ⟨p, _, ⟨h, _⟩ | ⟨h, _⟩⟩ <;> simp at h

lemma mem_trendInsight (flags : List Bool) (i : Insight) :
    i ∈ trendInsight flags ↔
      (i = Insight.concerningTrend ∧ 3 ≤ countTrue (lastN 14 flags)) := by
  unfold trendInsight
  split
  · simp_all
  · simp_all

lemma mem_careInsight (n : ℕ) (base v : ℚ) (col : List (Option ℚ)) (i : Insight) :
    i ∈ careInsight n base v col ↔
      (i = Insight.careRecommendation ∧ 14 < n ∧
        ∃ av, col.getLast? = some (some av) ∧ belowBySigma base v 1 av = true) := by
  unfold careInsight
  by_cases hn : 14 < n
  · rw [if_pos hn]
    cases hl : col.getLast? with
    | none => simp [hn]
    | some o =>
      cases o with
      | none => simp [hn]
      | some av =>
        by_cases hb : belowBySigma base v 1 av = true
        · simp [hb, hn]
        · simp [hb, hn]
  · rw [if_neg hn]
    simp [hn]

lemma mem_mismatchInsight (rs : List Record) (sents : List ℚ) (i : Insight) :
    i ∈ mismatchInsight rs sents ↔
      ∃ p, findConflict (rs.zip sents) = some p ∧
        i = Insight.nlpInsight (formatMonthDay p.1.date) := by
  unfold mismatchInsight
  cases hf : findConflict (rs.zip sents) with
  | none => simp
  | some p => simp

lemma rolling7_getLast (xs : List ℚ) (h : 7 ≤ xs.length) :
    (rolling7 xs).getLast? = some (some (qmean (xs.drop (xs.length - 7)))) := by
  unfold rolling7
  rw [show List.range xs.length = List.range (xs.length - 1) ++ [xs.length - 1] by
    conv_lhs => rw [show xs.length = (xs.length - 1) + 1 by omega]
    rw [List.range_succ]]
  rw [List.map_append]
  simp only [List.map_cons, List.map_nil]
  rw [List.getLast?_concat]
  rw [if_pos (by omega : 6 ≤ xs.length - 1)]
  rw [show xs.length - 1 + 1 = xs.length by omega,
    show xs.length - 1 - 6 = xs.length - 7 by omega, List.take_length]

/-- C3. For at least 7 records, the anomaly column flags exactly the
records whose score is strictly below baseline - 1.75 * std, where std
is the sample standard deviation (the square root of the sample
variance); a score at or above the threshold is never flagged. -/
theorem anomaly_flag_iff (rs : List Record) (senti : String → ℚ) (h : 7 ≤ rs.length) :
    (run_analysis senti (MoodAnalyzer.init rs)).is_anomaly = some (flagsOf rs) ∧
    ∀ x : ℚ, (belowBySigma (baselineOf rs) (varOf rs) (7 / 4) x = true ↔
      (x : ℝ) < (baselineOf rs : ℝ) - 1.75 * Real.sqrt (varOf rs)) := by
  constructor
  · rw [run_ge rs senti h]
  · intro x
    have hvar : 0 ≤ varOf rs :=
      sampleVar_nonneg (scoresOf rs) (by rw [length_scoresOf]; omega)
    rw [belowBySigma_iff_real _ _ _ _ hvar (by norm_num)]
    norm_num

theorem anomaly_flag_iff_witness :
    7 ≤ rs3c.length ∧
    (run_analysis sZero (MoodAnalyzer.init rs3c)).is_anomaly = some (flagsOf rs3c) :=
  ⟨by decide, (anomaly_flag_iff rs3c sZero (by decide)).1⟩

/-- C7. A care recommendation is emitted exactly when the record count
exceeds 14 and the latest 7-day rolling average lies strictly below
baseline - std (std the sample standard deviation). -/
theorem care_recommendation_iff (rs : List Record) (senti : String → ℚ) :
    Insight.careRecommendation ∈ (run_analysis senti (MoodAnalyzer.init rs)).insights ↔
      (14 < rs.length ∧
        ((last7avgOf rs : ℝ) < (baselineOf rs : ℝ) - Real.sqrt (varOf rs))) := by
  by_cases h7 : rs.length < 7
  · rw [run_lt rs senti h7]
    constructor
    · intro h
      simp at h
    · rintro ⟨h14, _⟩
      exact absurd h14 (by omega)
  · have h : 7 ≤ rs.length := Nat.le_of_not_lt h7
    have hvar : 0 ≤ varOf rs :=
      sampleVar_nonneg (scoresOf rs) (by rw [length_scoresOf]; omega)
    have hlast := rolling7_getLast (scoresOf rs) (by rw [length_scoresOf]; omega)
    rw [length_scoresOf] at hlast
    rw [run_ge rs senti h]
    show Insight.careRecommendation ∈
      Insight.infoSummary rs.length (baselineOf rs) ::
        (tagInsights (baselineOf rs) (tagCorr rs) ++
          trendInsight (flagsOf rs) ++
          careInsight rs.length (baselineOf rs) (varOf rs) (rolling7 (scoresOf rs)) ++
          mismatchInsight rs (rs.map (sentOf senti))) ↔ _
    simp only [List.mem_cons, List.mem_append]
    constructor
    · rintro (hc | (((hc | hc) | hc) | hc))
      · exact absurd hc (by simp)
      · exact absurd hc (care_not_mem_tagInsights _ _)
      · rw [mem_trendInsight] at hc
        exact absurd hc.1 (by simp)
      · rw [mem_careInsight] at hc
        obtain ⟨-, hn, av, hl, hb⟩ := hc
        rw [hlast] at hl
        obtain rfl : qmean ((scoresOf rs).drop (rs.length - 7)) = av := by
          injection (Option.some.inj hl)
        refine ⟨hn, ?_⟩
        have hbr := (belowBySigma_iff_real _ _ _ _ hvar (by norm_num)).mp hb
        simpa using hbr
      · rw [mem_mismatchInsight] at hc
        obtain ⟨p, -, heq⟩ := hc
        exact absurd heq (by simp)
    · rintro ⟨hn, hlt⟩
      refine Or.inr (Or.inl (Or.inr ?_))
      rw [mem_careInsight]
      refine ⟨rfl, hn, last7avgOf rs, hlast, ?_⟩
      rw [belowBySigma_iff_real _ _ _ _ hvar (by norm_num)]
      simpa using hlt

/-- C9. The analysis pipeline is a deterministic pure function of the
input list (and injected sentiment capability): two runs on the same
immutable input yield identical insight sequences. -/
theorem analysis_deterministic (raw₁ raw₂ : List RawRecord) (senti : String → ℚ)
    (h : raw₁ = raw₂) : analyze senti raw₁ = analyze senti raw₂ := by
  rw [h]

theorem analysis_deterministic_witness :
    rawD = rawD ∧ analyze sZero rawD = analyze sZero rawD :=
  ⟨rfl, analysis_deterministic rawD rawD sZero rfl⟩

/-- C10. On every input accepted by preprocessing, run_analysis
returns a non-empty insight sequence whose first element has kind
info (the baseline summary with 7 or more records, the more-data
prompt otherwise). -/
theorem first_insight_info (raw : List RawRecord) (senti : String → ℚ)
    (out : List Insight) (hok : analyze senti raw = Except.ok out) :
    out ≠ [] ∧ out.head?.map Insight.kind = some InsightKind.info := by
  unfold analyze at hok
  cases hp : preprocess raw with
  | error e =>
    rw [hp] at hok
    exact absurd hok (by simp)
  | ok rs =>
    rw [hp] at hok
    obtain rfl : (run_analysis senti (MoodAnalyzer.init rs)).insights = out :=
      Except.ok.inj hok
    by_cases h7 : rs.length < 7
    · rw [run_lt rs senti h7]
      exact ⟨by simp, rfl⟩
    · rw [run_ge rs senti (Nat.le_of_not_lt h7)]
      exact ⟨by simp, rfl⟩

theorem first_insight_info_witness :
    analyze sZero rawD = Except.ok [Insight.infoMoreData] ∧
    (([Insight.infoMoreData] : List Insight) ≠ [] ∧
      ([Insight.infoMoreData] : List Insight).head?.map Insight.kind =
        some InsightKind.info) :=
  ⟨rfl, first_insight_info rawD sZero [Insight.infoMoreData] rfl⟩

/-- C8 counterexample: on three records, all with nonempty journals,
the journal sentiment column is never written at all:
_detect_patterns_and_anomalies returns before computing it whenever
baseline statistics are missing. -/
theorem sentiment_not_computed_cex :
    (∀ r ∈ rs8, r.journal ≠ emptyS) ∧
    (run_analysis sPlus (MoodAnalyzer.init rs8)).journal_sentiment = none := by
  constructor
  · decide
  · rfl

/-- C8 corrected: the journal sentiment column is computed only when
baseline statistics exist (7 or more records). Then it holds, per
record, sentiment(journal) for a nonempty journal and 0 for an empty
one, and its value never depends on the capability's behaviour on the
empty text. -/
theorem journal_sentiment_with_baseline (rs : List Record) (senti : String → ℚ)
    (h : 7 ≤ rs.length) :
    (run_analysis senti (MoodAnalyzer.init rs)).journal_sentiment =
      some (rs.map (sentOf senti)) ∧
    (∀ r ∈ rs, r.journal = emptyS → sentOf senti r = 0) ∧
    (∀ f g : String → ℚ, (∀ s, s ≠ emptyS → f s = g s) →
      rs.map (sentOf f) = rs.map (sentOf g)) := by
  refine ⟨?_, ?_, ?_⟩
  · rw [run_ge rs senti h]
  · intro r _ hj
    simp [sentOf, hj]
  · intro f g hfg
    apply List.map_congr_left
    intro r _
    unfold sentOf
    by_cases hr : r.journal = emptyS
    · rw [if_pos hr, if_pos hr]
    · rw [if_neg hr, if_neg hr]
      exact hfg _ hr

theorem journal_sentiment_with_baseline_witness :
    7 ≤ rs8a.length ∧
    (run_analysis sNeg (MoodAnalyzer.init rs8a)).journal_sentiment =
      some (rs8a.map (sentOf sNeg)) :=
  ⟨by decide, (journal_sentiment_with_baseline rs8a sNeg (by decide)).1⟩

lemma tagScores_append (t : String) (l1 l2 : List (String × ℚ)) :
    tagScores t (l1 ++ l2) = tagScores t l1 ++ tagScores t l2 := by
  induction l1 with
  | nil => simp [tagScores]
  | cons p rest ih =>
    simp only [List.cons_append, tagScores]
    split <;> simp [ih]

lemma tagScores_map_pair (t : String) (sc : ℚ) (l : List String) :
    tagScores t (l.map (fun x => (x, sc))) = occList t sc l := by
  induction l with
  | nil => rfl
  | cons x rest ih =>
    simp only [List.map_cons]
    show (if x = t then sc :: tagScores t (rest.map (fun x => (x, sc)))
      else tagScores t (rest.map (fun x => (x, sc)))) = _
    unfold occList
    split <;> simp [ih]

lemma tagScores_explode_eq_occScores (t : String) (rs : List Record) :
    tagScores t (explodeTags rs) = occScores t rs := by
  induction rs with
  | nil => rfl
  | cons r rest ih =>
    simp only [explodeTags, occScores]
    rw [tagScores_append, tagScores_map_pair, ih]

lemma tagMean_eq_occ (rs : List Record) (t : String) :
    tagMean rs t = qmean (occScores t rs) := by
  unfold tagMean
  rw [tagScores_explode_eq_occScores]

lemma mem_dedupFirstAux (l : List String) (seen : List String) (x : String) :
    x ∈ dedupFirstAux seen l ↔ (x ∈ l ∧ x ∉ seen) := by
  induction l generalizing seen with
  | nil => simp [dedupFirstAux]
  | cons t rest ih =>
    unfold dedupFirstAux
    by_cases h : t ∈ seen
    · rw [if_pos h, ih]
      simp only [List.mem_cons]
      constructor
      · rintro ⟨hx, hn⟩
        exact ⟨Or.inr hx, hn⟩
      · rintro ⟨rfl | hx, hn⟩
        · exact absurd h hn
        · exact ⟨hx, hn⟩
    · rw [if_neg h]
      simp only [List.mem_cons, ih]
      constructor
      · rintro (rfl | ⟨hx, hn⟩)
        · exact ⟨Or.inl rfl, h⟩
        · exact ⟨Or.inr hx, fun hs => hn (Or.inr hs)⟩
      · rintro ⟨rfl | hx, hn⟩
        · exact Or.inl rfl
        · by_cases hxt : x = t
          · exact Or.inl hxt
          · exact Or.inr ⟨hx, by simp [hxt, hn]⟩

lemma mem_dedupFirst (l : List String) (x : String) :
    x ∈ dedupFirst l ↔ x ∈ l := by
  unfold dedupFirst
  rw [mem_dedupFirstAux]
  simp

lemma mem_insertTag (t x : String) (l : List String) :
    x ∈ insertTag t l ↔ x = t ∨ x ∈ l := by
  induction l with
  | nil => simp [insertTag]
  | cons y ys ih =>
    unfold insertTag
    split
    · simp [List.mem_cons]
    · simp only [List.mem_cons, ih]
      tauto

lemma mem_sortTags (l : List String) (x : String) :
    x ∈ sortTags l ↔ x ∈ l := by
  induction l with
  | nil => simp [sortTags]
  | cons y ys ih =>
    show x ∈ insertTag y (sortTags ys) ↔ _
    rw [mem_insertTag, ih]
    simp [List.mem_cons]

lemma tagScores_ne_nil_iff (t : String) (l : List (String × ℚ)) :
    tagScores t l ≠ [] ↔ t ∈ l.map Prod.fst := by
  induction l with
  | nil => simp [tagScores]
  | cons p rest ih =>
    unfold tagScores
    by_cases h : p.1 = t
    · simp [h]
    · rw [if_neg h, ih]
      simp only [List.map_cons, List.mem_cons]
      constructor
      · intro h1
        exact Or.inr h1
      · rintro (rfl | h1)
        · exact absurd rfl h
        · exact h1

/-- C4 corrected: tag_correlations maps each tag occurring in the
series to the mean score over all (record, tag-occurrence) pairs: a
record carrying a tag k times contributes its score k times, and
records with empty tag lists contribute to no group. -/
theorem tag_correlations_occurrence_mean (rs : List Record) (senti : String → ℚ)
    (h : 7 ≤ rs.length) :
    (run_analysis senti (MoodAnalyzer.init rs)).tag_correlations =
      some (tagCorr rs) ∧
    (∀ t m, (t, m) ∈ tagCorr rs → m = qmean (occScores t rs)) ∧
    (∀ t, t ∈ (tagCorr rs).map Prod.fst ↔ occScores t rs ≠ []) := by
  refine ⟨?_, ?_, ?_⟩
  · rw [run_ge rs senti h]
  · intro t m hm
    unfold tagCorr at hm
    rcases List.mem_map.mp hm with ⟨t', ht', heq⟩
    obtain ⟨rfl, rfl⟩ := Prod.mk.inj heq
    exact tagMean_eq_occ rs t'
  · intro t
    unfold tagCorr
    rw [List.map_map]
    show t ∈ (sortedTagsOf rs).map (fun x => x) ↔ _
    rw [List.map_id']
    unfold sortedTagsOf tagsOf
    rw [mem_sortTags, mem_dedupFirst, ← tagScores_ne_nil_iff,
      tagScores_explode_eq_occScores]

theorem tag_correlations_occurrence_mean_witness :
    7 ≤ rs4.length ∧
    (run_analysis sZero (MoodAnalyzer.init rs4)).tag_correlations =
      some (tagCorr rs4) :=
  ⟨by decide, (tag_correlations_occurrence_mean rs4 sZero (by decide)).1⟩

/-- C4 counterexample: in rs4 the first record carries tag a twice, so
the explode-based grouping averages the multiset [10, 10, 4] and
reports 8, while the claim's distinct-tag reading averages [10, 4]
and demands 7. -/
theorem tag_mean_duplicate_cex :
    (run_analysis sZero (MoodAnalyzer.init rs4)).tag_correlations =
      some [(tagA, 8)] ∧
    specTagMeanDistinct rs4 tagA = 7 ∧ (8 : ℚ) ≠ 7 := by
  refine ⟨?_, ?_, by norm_num⟩
  · rw [run_ge rs4 sZero (by decide)]
    show some (tagCorr rs4) = some [(tagA, 8)]
    norm_num [tagCorr, sortedTagsOf, tagsOf, sortTags, insertTag, dedupFirst,
      dedupFirstAux, explodeTags, tagMean, tagScores, qmean, rs4, tagA, emptyS]
  · norm_num [specTagMeanDistinct, recordsWithTag, scoresOf, qmean, rs4, tagA,
      emptyS]

lemma patternTags_append (l1 l2 : List Insight) :
    patternTags (l1 ++ l2) = patternTags l1 ++ patternTags l2 := by
  induction l1 with
  | nil => rfl
  | cons i rest ih => cases i <;> simp [patternTags, ih]

lemma patternTags_trendInsight (flags : List Bool) :
    patternTags (trendInsight flags) = [] := by
  unfold trendInsight
  split <;> rfl

lemma patternTags_careInsight (n : ℕ) (base v : ℚ) (col : List (Option ℚ)) :
    patternTags (careInsight n base v col) = [] := by
  unfold careInsight
  split
  · split
    · split <;> rfl
    · rfl
  · rfl

lemma patternTags_mismatchInsight (rs : List Record) (sents : List ℚ) :
    patternTags (mismatchInsight rs sents) = [] := by
  unfold mismatchInsight
  cases findConflict (rs.zip sents) <;> rfl

lemma patternTags_tagInsights_sublist (base : ℚ) (tc : List (String × ℚ)) :
    (patternTags (tagInsights base tc)).Sublist (tc.map Prod.fst) := by
  induction tc with
  | nil => simp [tagInsights, patternTags]
  | cons p rest ih =>
    unfold tagInsights
    by_cases h1 : base + 1 < p.2
    · rw [if_pos h1]
      exact List.Sublist.cons₂ _ ih
    · rw [if_neg h1]
      by_cases h2 : p.2 < base - 1
      · rw [if_pos h2]
        exact List.Sublist.cons₂ _ ih
      · rw [if_neg h2]
        exact List.Sublist.cons _ ih

lemma lexLe_total (as bs : List ℕ) : lexLe as bs = true ∨ lexLe bs as = true := by
  induction as generalizing bs with
  | nil =>
    left
    rfl
  | cons a at' ih =>
    cases bs with
    | nil =>
      right
      rfl
    | cons b bt =>
      rcases lt_trichotomy a b with h | rfl | h
      · left
        simp [lexLe, h]
      · simp only [lexLe, lt_irrefl, if_false]
        exact ih bt
      · right
        simp [lexLe, h]

lemma lexLe_trans (as bs cs : List ℕ) (h1 : lexLe as bs = true)
    (h2 : lexLe bs cs = true) : lexLe as cs = true := by
  induction as generalizing bs cs with
  | nil => rfl
  | cons a at' ih =>
    cases bs with
    | nil => exact absurd h1 (by simp [lexLe])
    | cons b bt =>
      cases cs with
      | nil => exact absurd h2 (by simp [lexLe])
      | cons c ct =>
        rcases lt_trichotomy a b with hab | rfl | hab
        · rcases lt_trichotomy b c with hbc | rfl | hbc
          · simp [lexLe, lt_trans hab hbc]
          · simp [lexLe, hab]
          · simp [lexLe, lt_asymm hbc, hbc] at h2
        · rcases lt_trichotomy a c with hac | rfl | hac
          · simp [lexLe, hac]
          · simp only [lexLe, lt_irrefl, if_false] at h1 h2 ⊢
            exact ih bt ct h1 h2
          · simp [lexLe, lt_asymm hac, hac] at h2
        · simp [lexLe, lt_asymm hab, hab] at h1

lemma strLe_total (s t : String) : strLe s t = true ∨ strLe t s = true :=
  lexLe_total _ _

lemma strLe_trans (s t u : String) (h1 : strLe s t = true)
    (h2 : strLe t u = true) : strLe s u = true :=
  lexLe_trans _ _ _ h1 h2

lemma pairwise_insertTag (t : String) (l : List String)
    (h : List.Pairwise (fun a b => strLe a b = true) l) :
    List.Pairwise (fun a b => strLe a b = true) (insertTag t l) := by
  induction l with
  | nil => simp [insertTag]
  | cons x xs ih =>
    rcases List.pairwise_cons.mp h with ⟨hx, hxs⟩
    unfold insertTag
    by_cases hle : strLe t x = true
    · rw [if_pos hle]
      refine List.pairwise_cons.mpr ⟨?_, h⟩
      intro y hy
      rcases List.mem_cons.mp hy with rfl | hy'
      · exact hle
      · exact strLe_trans _ _ _ hle (hx y hy')
    · rw [if_neg hle]
      refine List.pairwise_cons.mpr ⟨?_, ih hxs⟩
      intro y hy
      rcases (mem_insertTag t y xs).mp hy with h | hy'
      · rw [h]
        rcases strLe_total t x with h1 | h1
        · exact absurd h1 hle
        · exact h1
      · exact hx y hy'

lemma sorted_sortTags (l : List String) :
    List.Pairwise (fun a b => strLe a b = true) (sortTags l) := by
  induction l with
  | nil => simp [sortTags]
  | cons x xs ih =>
    show List.Pairwise _ (insertTag x (sortTags xs))
    exact pairwise_insertTag x _ ih

lemma tagCorr_map_fst (rs : List Record) :
    (tagCorr rs).map Prod.fst = sortedTagsOf rs := by
  unfold tagCorr
  rw [List.map_map]
  show (sortedTagsOf rs).map (fun x => x) = sortedTagsOf rs
  exact List.map_id' _

/-- C5 corrected: the tag-pattern step iterates the tags in sorted
(lexicographic) key order — the order pandas groupby enumerates its
groups — not in first-encounter order; for each tag a positive pattern
is emitted exactly when its mean is strictly above baseline + 1.0 and
a negative pattern exactly when strictly below baseline - 1.0, with no
insight at the boundaries. -/
theorem tag_patterns_sorted_thresholds (rs : List Record) (senti : String → ℚ)
    (h : 7 ≤ rs.length) :
    (∀ t m, Insight.positivePattern t m ∈
        (run_analysis senti (MoodAnalyzer.init rs)).insights ↔
      ((t, m) ∈ tagCorr rs ∧ baselineOf rs + 1 < m)) ∧
    (∀ t m, Insight.negativePattern t m ∈
        (run_analysis senti (MoodAnalyzer.init rs)).insights ↔
      ((t, m) ∈ tagCorr rs ∧ m < baselineOf rs - 1)) ∧
    List.Pairwise (fun a b => strLe a b = true)
      (patternTags (run_analysis senti (MoodAnalyzer.init rs)).insights) := by
  rw [run_ge rs senti h]
  refine ⟨?_, ?_, ?_⟩
  · intro t m
    simp only [List.mem_cons, List.mem_append]
    constructor
    · rintro (hc | (((hc | hc) | hc) | hc))
      · exact absurd hc (by simp)
      · exact (pos_mem_tagInsights _ _ _ _).mp hc
      · rw [mem_trendInsight] at hc
        exact absurd hc.1 (by simp)
      · rw [mem_careInsight] at hc
        exact absurd hc.1 (by simp)
      · rw [mem_mismatchInsight] at hc
        obtain ⟨p, -, heq⟩ := hc
        exact absurd heq (by simp)
    · intro hc
      exact Or.inr (Or.inl (Or.inl (Or.inl ((pos_mem_tagInsights _ _ _ _).mpr hc))))
  · intro t m
    simp only [List.mem_cons, List.mem_append]
    constructor
    · rintro (hc | (((hc | hc) | hc) | hc))
      · exact absurd hc (by simp)
      · exact (neg_mem_tagInsights _ _ _ _).mp hc
      · rw [mem_trendInsight] at hc
        exact absurd hc.1 (by simp)
      · rw [mem_careInsight] at hc
        exact absurd hc.1 (by simp)
      · rw [mem_mismatchInsight] at hc
        obtain ⟨p, -, heq⟩ := hc
        exact absurd heq (by simp)
    · intro hc
      exact Or.inr (Or.inl (Or.inl (Or.inl ((neg_mem_tagInsights _ _ _ _).mpr hc))))
  · have hred : patternTags (Insight.infoSummary rs.length (baselineOf rs) ::
        (tagInsights (baselineOf rs) (tagCorr rs) ++ trendInsight (flagsOf rs) ++
          careInsight rs.length (baselineOf rs) (varOf rs) (rolling7 (scoresOf rs)) ++
          mismatchInsight rs (rs.map (sentOf senti)))) =
        patternTags (tagInsights (baselineOf rs) (tagCorr rs)) := by
      show patternTags (tagInsights (baselineOf rs) (tagCorr rs) ++
        trendInsight (flagsOf rs) ++
        careInsight rs.length (baselineOf rs) (varOf rs) (rolling7 (scoresOf rs)) ++
        mismatchInsight rs (rs.map (sentOf senti))) = _
      rw [patternTags_append, patternTags_append, patternTags_append,
        patternTags_trendInsight, patternTags_careInsight, patternTags_mismatchInsight]
      simp
    show List.Pairwise _ (patternTags _)
    rw [hred]
    have hsub := patternTags_tagInsights_sublist (baselineOf rs) (tagCorr rs)
    rw [tagCorr_map_fst] at hsub
    exact List.Pairwise.sublist hsub (sorted_sortTags (tagsOf rs))

theorem tag_patterns_sorted_thresholds_witness :
    7 ≤ rs5.length ∧
    List.Pairwise (fun a b => strLe a b = true)
      (patternTags (run_analysis sZero (MoodAnalyzer.init rs5)).insights) :=
  ⟨by decide, (tag_patterns_sorted_thresholds rs5 sZero (by decide)).2.2⟩

/-- C5 counterexample: in rs5 tag b is encountered (during grouping of
the exploded rows) before tag a, and both tag means lie above
baseline + 1; the emitted pattern insights nonetheless name a before
b — sorted order, not first-encounter order. -/
theorem tag_insight_order_cex :
    (run_analysis sZero (MoodAnalyzer.init rs5)).insights =
      [Insight.infoSummary 7 6,
        Insight.positivePattern tagA 9,
        Insight.positivePattern tagB 9] ∧
    tagsOf rs5 = [tagB, tagA] ∧
    patternTags (run_analysis sZero (MoodAnalyzer.init rs5)).insights =
      [tagA, tagB] ∧
    ([tagA, tagB] : List String) ≠ [tagB, tagA] := by
  have hab : strLe tagA tagB = true := by decide
  have hba : strLe tagB tagA = false := by decide
  have hne1 : ¬ (tagB = tagA) := by decide
  have hne2 : ¬ (tagA = tagB) := by decide
  have h1 : (run_analysis sZero (MoodAnalyzer.init rs5)).insights =
      [Insight.infoSummary 7 6,
        Insight.positivePattern tagA 9,
        Insight.positivePattern tagB 9] := by
    rw [run_ge rs5 sZero (by decide)]
    norm_num [rs5, baselineOf, varOf, flagsOf, scoresOf, qmean, sampleVar,
      belowBySigma, tagCorr, sortedTagsOf, tagsOf, sortTags, insertTag,
      dedupFirst, dedupFirstAux, explodeTags, tagMean, tagScores, tagInsights,
      trendInsight, careInsight, mismatchInsight, findConflict, lastN,
      countTrue, sentOf, sZero, hab, hba, hne1, hne2, List.zip]
  refine ⟨h1, by decide, ?_, by decide⟩
  rw [h1]
  rfl

lemma mem_insertRec (r x : Record) (l : List Record) :
    x ∈ insertRec r l ↔ x = r ∨ x ∈ l := by
  induction l with
  | nil => simp [insertRec]
  | cons y ys ih =>
    unfold insertRec
    split
    · simp [List.mem_cons]
    · simp only [List.mem_cons, ih]
      tauto

lemma pairwise_insertRec (r : Record) (l : List Record)
    (h : List.Pairwise (fun a b => dateKey a.date ≤ dateKey b.date) l) :
    List.Pairwise (fun a b => dateKey a.date ≤ dateKey b.date) (insertRec r l) := by
  induction l with
  | nil => simp [insertRec]
  | cons x xs ih =>
    rcases List.pairwise_cons.mp h with ⟨hx, hxs⟩
    unfold insertRec
    by_cases hle : dateKey r.date ≤ dateKey x.date
    · rw [if_pos hle]
      refine List.pairwise_cons.mpr ⟨?_, h⟩
      intro y hy
      rcases List.mem_cons.mp hy with rfl | hy'
      · exact hle
      · exact le_trans hle (hx y hy')
    · rw [if_neg hle]
      refine List.pairwise_cons.mpr ⟨?_, ih hxs⟩
      intro y hy
      rcases (mem_insertRec r y xs).mp hy with h1 | hy'
      · rw [h1]
        omega
      · exact hx y hy'

lemma sortRecs_sorted (l : List Record) :
    List.Pairwise (fun a b => dateKey a.date ≤ dateKey b.date) (sortRecs l) := by
  induction l with
  | nil => simp [sortRecs]
  | cons x xs ih =>
    show List.Pairwise _ (insertRec x (sortRecs xs))
    exact pairwise_insertRec x _ ih

lemma preprocess_sorted (raw : List RawRecord) (rs : List Record)
    (hok : preprocess raw = Except.ok rs) :
    List.Pairwise (fun a b => dateKey a.date ≤ dateKey b.date) rs := by
  unfold preprocess at hok
  by_cases hne : raw = []
  · rw [if_pos hne] at hok
    exact absurd hok (by simp)
  · rw [if_neg hne] at hok
    cases hp : parseAll raw with
    | none =>
      rw [hp] at hok
      exact absurd hok (by simp)
    | some l =>
      rw [hp] at hok
      obtain rfl := Except.ok.inj hok
      exact sortRecs_sorted l

lemma findConflict_zip_cons (f : Record → ℚ) (r : Record) (rest : List Record) :
    findConflict ((r :: rest).zip ((r :: rest).map f)) =
      if 7 < r.mood_score ∧ f r < -(1 / 2) then some (r, f r)
      else findConflict (rest.zip (rest.map f)) := rfl

/-- The filter-then-index[0] of lines 66-68 picks the first qualifying
row; on a date-sorted frame that row's date is minimal among all
qualifying rows. -/
lemma findConflict_zip_spec (f : Record → ℚ) (rs : List Record)
    (hpw : List.Pairwise (fun a b => dateKey a.date ≤ dateKey b.date) rs) :
    (findConflict (rs.zip (rs.map f)) = none →
        ∀ r ∈ rs, ¬(7 < r.mood_score ∧ f r < -(1 / 2))) ∧
    (∀ p, findConflict (rs.zip (rs.map f)) = some p →
        p.1 ∈ rs ∧ p.2 = f p.1 ∧ (7 < p.1.mood_score ∧ f p.1 < -(1 / 2)) ∧
        ∀ r' ∈ rs, (7 < r'.mood_score ∧ f r' < -(1 / 2)) →
          dateKey p.1.date ≤ dateKey r'.date) := by
  induction rs with
  | nil =>
    constructor
    · intro _ r hr
      simp at hr
    · intro p hp
      exact absurd hp (by simp [findConflict])
  | cons r rest ih =>
    rcases List.pairwise_cons.mp hpw with ⟨hhead, htail⟩
    have ihh := ih htail
    rw [findConflict_zip_cons]
    by_cases hq : (7 < r.mood_score ∧ f r < -(1 / 2))
    · rw [if_pos hq]
      constructor
      · intro hn
        exact absurd hn (by simp)
      · intro p hp
        obtain rfl := (Option.some.inj hp).symm
        refine ⟨by simp, rfl, hq, ?_⟩
        intro r' hr' _
        rcases List.mem_cons.mp hr' with rfl | hr''
        · exact le_refl _
        · exact hhead r' hr''
    · rw [if_neg hq]
      constructor
      · intro hn r' hr'
        rcases List.mem_cons.mp hr' with rfl | hr''
        · exact hq
        · exact ihh.1 hn r' hr''
      · intro p hp
        obtain ⟨hmem, hfr, hqp, hmin⟩ := ihh.2 p hp
        refine ⟨List.mem_cons_of_mem _ hmem, hfr, hqp, ?_⟩
        intro r' hr' hq'
        rcases List.mem_cons.mp hr' with rfl | hr''
        · exact absurd hq' hq
        · exact hmin r' hr'' hq'

lemma countNlp_cons_info (n : ℕ) (b : ℚ) (l : List Insight) :
    countNlp (Insight.infoSummary n b :: l) = countNlp l := rfl

lemma countNlp_append (l1 l2 : List Insight) :
    countNlp (l1 ++ l2) = countNlp l1 + countNlp l2 := by
  induction l1 with
  | nil => simp [countNlp]
  | cons i rest ih =>
    cases i <;> simp [countNlp, ih] <;> omega

lemma countNlp_tagInsights (base : ℚ) (tc : List (String × ℚ)) :
    countNlp (tagInsights base tc) = 0 := by
  induction tc with
  | nil => rfl
  | cons p rest ih =>
    unfold tagInsights
    by_cases h1 : base + 1 < p.2
    · rw [if_pos h1]
      exact ih
    · rw [if_neg h1]
      by_cases h2 : p.2 < base - 1
      · rw [if_pos h2]
        exact ih
      · rw [if_neg h2]
        exact ih

lemma countNlp_trendInsight (flags : List Bool) :
    countNlp (trendInsight flags) = 0 := by
  unfold trendInsight
  split <;> rfl

lemma countNlp_careInsight (n : ℕ) (base v : ℚ) (col : List (Option ℚ)) :
    countNlp (careInsight n base v col) = 0 := by
  unfold careInsight
  split
  · split
    · split <;> rfl
    · rfl
  · rfl

lemma countNlp_mismatchInsight (rs : List Record) (sents : List ℚ) :
    countNlp (mismatchInsight rs sents) ≤ 1 := by
  unfold mismatchInsight
  cases findConflict (rs.zip sents) <;> simp [countNlp]

/-- C6. With at least 7 preprocessed (hence date-sorted) records, at
most one nlp insight is ever produced; when some record has mood score
strictly above 7 and journal sentiment strictly below -0.5, the
emitted nlp insight names (as full month name plus day) the date of a
qualifying record whose date is minimal among all qualifying records;
when no record qualifies, no nlp insight appears. -/
theorem sentiment_mismatch_first (raw : List RawRecord) (senti : String → ℚ)
    (rs : List Record) (hok : preprocess raw = Except.ok rs) (h7 : 7 ≤ rs.length) :
    countNlp (run_analysis senti (MoodAnalyzer.init rs)).insights ≤ 1 ∧
    ((∃ r ∈ rs, 7 < r.mood_score ∧ sentOf senti r < -(1 / 2)) →
      ∃ r ∈ rs, (7 < r.mood_score ∧ sentOf senti r < -(1 / 2)) ∧
        Insight.nlpInsight (formatMonthDay r.date) ∈
          (run_analysis senti (MoodAnalyzer.init rs)).insights ∧
        ∀ r' ∈ rs, (7 < r'.mood_score ∧ sentOf senti r' < -(1 / 2)) →
          dateKey r.date ≤ dateKey r'.date) ∧
    ((∀ r ∈ rs, ¬(7 < r.mood_score ∧ sentOf senti r < -(1 / 2))) →
      ∀ s, Insight.nlpInsight s ∉ (run_analysis senti (MoodAnalyzer.init rs)).insights) := by
  have hpw := preprocess_sorted raw rs hok
  have hspec := findConflict_zip_spec (sentOf senti) rs hpw
  rw [run_ge rs senti h7]
  refine ⟨?_, ?_, ?_⟩
  · rw [countNlp_cons_info, countNlp_append, countNlp_append, countNlp_append,
      countNlp_tagInsights, countNlp_trendInsight, countNlp_careInsight]
    simpa using countNlp_mismatchInsight rs (rs.map (sentOf senti))
  · intro hex
    cases hf : findConflict (rs.zip (rs.map (sentOf senti))) with
    | none =>
      exfalso
      obtain ⟨r, hr, hq⟩ := hex
      exact hspec.1 hf r hr hq
    | some p =>
      obtain ⟨hmem, -, hqp, hmin⟩ := hspec.2 p hf
      refine ⟨p.1, hmem, hqp, ?_, hmin⟩
      simp only [List.mem_cons, List.mem_append]
      refine Or.inr (Or.inr ?_)
      rw [mem_mismatchInsight]
      exact ⟨p, hf, rfl⟩
  · intro hall s
    intro hmem
    rcases (by simpa only [List.mem_cons, List.mem_append] using hmem :
        Insight.nlpInsight s = Insight.infoSummary rs.length (baselineOf rs) ∨
          (((Insight.nlpInsight s ∈ tagInsights (baselineOf rs) (tagCorr rs) ∨
              Insight.nlpInsight s ∈ trendInsight (flagsOf rs)) ∨
            Insight.nlpInsight s ∈
              careInsight rs.length (baselineOf rs) (varOf rs) (rolling7 (scoresOf rs))) ∨
            Insight.nlpInsight s ∈ mismatchInsight rs (rs.map (sentOf senti)))) with
      hc | (((hc | hc) | hc) | hc)
    · exact absurd hc (by simp)
    · exact absurd hc (nlp_not_mem_tagInsights _ _ _)
    · rw [mem_trendInsight] at hc
      exact absurd hc.1 (by simp)
    · rw [mem_careInsight] at hc
      exact absurd hc.1 (by simp)
    · rw [mem_mismatchInsight] at hc
      obtain ⟨p, hp, -⟩ := hc
      cases hf : findConflict (rs.zip (rs.map (sentOf senti))) with
      | none =>
        rw [hf] at hp
        exact absurd hp (by simp)
      | some q =>
        obtain ⟨hmem', -, hqp, -⟩ := hspec.2 q hf
        exact hall q.1 hmem' hqp

theorem sentiment_mismatch_first_witness :
    preprocess raw6 = Except.ok rs6c ∧ 7 ≤ rs6c.length ∧
    countNlp (run_analysis sNeg (MoodAnalyzer.init rs6c)).insights ≤ 1 :=
  ⟨by rfl, by decide,
    (sentiment_mismatch_first raw6 sNeg rs6c (by rfl) (by decide)).1⟩
